import Mathlib

/-!
Shallow embedding of the streaks module (focus sessions, day splitting and
the per-user streak aggregate) together with proofs about the natural
language specification of the module.

Conventions of the embedding:

* Instants are integer milliseconds since the epoch, the resolution of a
  JavaScript Date.
* A timezone is modelled by its fixed UTC offset in milliseconds.  The date
  library functions used by the source (date-fns and date-fns-tz) are
  embedded for such fixed offset zones: toZonedTime adds the offset,
  fromZonedTime subtracts it, startOfDay and endOfDay floor and cap inside
  the civil day of the wall clock value.  Daylight saving transitions are
  outside this model (the specification itself lists DST resolution as an
  open question delegated to the date library).
* A civil date (a YYYY-MM-DD string in the source) is modelled by its civil
  day index; parseISO of such a string is the midnight instant
  dayMs * index, startOfDay is the identity there, and
  differenceInCalendarDays of two such midnights is the difference of the
  day indexes.
* Fallible constructors and operations return Except; a thrown zod
  validation error or domain error becomes an error value.
-/

namespace Streaks

/-- Milliseconds in one civil day. -/
def dayMs : Int := 86400000

/-- date-fns differenceInMinutes: whole minutes between two instants,
truncated toward zero, which is what Int.tdiv does. -/
def minutesBetween (a b : Int) : Int := Int.tdiv (a - b) 60000

/-- date-fns startOfDay on a wall clock timestamp: the most recent
midnight.  Division on Int is Euclidean and floors for a positive divisor,
so this is also correct for negative (pre-1970) timestamps. -/
def startOfDay (t : Int) : Int := dayMs * (t / dayMs)

/-- date-fns endOfDay: the last millisecond (23:59:59.999) of the civil day
containing the wall clock timestamp t. -/
def endOfDay (t : Int) : Int := startOfDay t + (dayMs - 1)

/-- Civil day index of a wall clock timestamp. -/
def civilDay (t : Int) : Int := t / dayMs

/-- Errors thrown by the embedded code. -/
inductive DomainError where
  /-- A zod schema parse failure (negative counter, empty identifier,
  nonpositive duration). -/
  | zodError : DomainError
  /-- The explicit business rule check of FocusSession.create. -/
  | endNotAfterStart : DomainError
  /-- FocusSessionAlreadyExistsError thrown by the session repository save
  when the session id already exists. -/
  | focusSessionAlreadyExists (sessionId : String) : DomainError
deriving Repr, DecidableEq

/-- The UserStreak aggregate of src/modules/streaks/domain/user-streak:
userId, currentStreak, longestStreak, lastQualifiedDate (YYYY-MM-DD string
or null in the source, here an optional civil day index), qualifiedDaysCount
and updatedAt. -/
structure UserStreak where
  userId : String
  currentStreak : Int
  longestStreak : Int
  lastQualifiedDate : Option Int
  qualifiedDaysCount : Int
  updatedAt : Int
deriving Repr, DecidableEq

namespace UserStreak

/-- The checks of UserStreakPropsSchema: the three counters are
nonnegative integers (z.number().int().min(0)) and lastQualifiedDate is
nullable with no further cross field constraint.  The z.uuid() format check
on userId is modelled as nonemptiness of the identifier: none of the
claims involves a malformed user id, and every concrete input used below
uses an identifier that also passes the uuid check of the source. -/
def schemaCheck (s : UserStreak) : Bool :=
  s.userId ≠ "" && 0 ≤ s.currentStreak && 0 ≤ s.longestStreak &&
    0 ≤ s.qualifiedDaysCount

/-- UserStreak.create: zod parse of the props, then the private
constructor, which copies the fields verbatim.  A parse failure throws (is
an error); there is no clamping and no cross field validation. -/
def create (s : UserStreak) : Except DomainError UserStreak :=
  if schemaCheck s then .ok s else .error .zodError

/-- UserStreak.createNew: the zero valued aggregate for a user. -/
def createNew (userId : String) (now : Int) : UserStreak :=
  { userId := userId, currentStreak := 0, longestStreak := 0,
    lastQualifiedDate := none, qualifiedDaysCount := 0, updatedAt := now }

/-- UserStreak.updateWithQualifiedDate, embedded as a pure state
transformer (the source mutates the fields of this in place).  The source
computes daysDiff as differenceInCalendarDays of the startOfDay of the
parsed dates, which on YYYY-MM-DD civil dates is the difference of the day
indexes.  The falsiness test on the stored string is Option.isNone here
(stored qualified dates are nonempty strings). -/
def updateWithQualifiedDate (s : UserStreak) (qualifiedDate : Int)
    (now : Int) : UserStreak :=
  match s.lastQualifiedDate with
  | none =>
      { s with currentStreak := 1, longestStreak := 1,
               lastQualifiedDate := some qualifiedDate,
               qualifiedDaysCount := 1, updatedAt := now }
  | some last =>
      let daysDiff := qualifiedDate - last
      if daysDiff = 0 then
        { s with updatedAt := now }
      else if daysDiff < 0 then
        { s with qualifiedDaysCount := s.qualifiedDaysCount + 1,
                 updatedAt := now }
      else if daysDiff = 1 then
        { s with currentStreak := s.currentStreak + 1,
                 lastQualifiedDate := some qualifiedDate,
                 qualifiedDaysCount := s.qualifiedDaysCount + 1,
                 longestStreak :=
                   if s.longestStreak < s.currentStreak + 1 then
                     s.currentStreak + 1
                   else s.longestStreak,
                 updatedAt := now }
      else
        { s with currentStreak := 1,
                 lastQualifiedDate := some qualifiedDate,
                 qualifiedDaysCount := s.qualifiedDaysCount + 1,
                 updatedAt := now }

/-- UserStreak.resetStreak: currentStreak to 0, lastQualifiedDate to null,
updatedAt refreshed; longestStreak and qualifiedDaysCount are kept. -/
def resetStreak (s : UserStreak) (now : Int) : UserStreak :=
  { s with currentStreak := 0, lastQualifiedDate := none, updatedAt := now }

end UserStreak

/-- An operation on the aggregate: either updateWithQualifiedDate with a
qualifying date, or resetStreak; each carries the clock value the injected
date provider returns during the call. -/
inductive StreakOp where
  | update (qualifiedDate : Int) (now : Int) : StreakOp
  | reset (now : Int) : StreakOp
deriving Repr, DecidableEq

/-- Apply one operation. -/
def applyOp (s : UserStreak) : StreakOp → UserStreak
  | .update d now => s.updateWithQualifiedDate d now
  | .reset now => s.resetStreak now

/-- Apply a sequence of operations from left to right. -/
def runOps (s : UserStreak) (l : List StreakOp) : UserStreak :=
  l.foldl applyOp s

/-- Apply a sequence of updateWithQualifiedDate calls, each given as a
pair of qualifying date and clock value. -/
def runUpdates (s : UserStreak) (l : List (Int × Int)) : UserStreak :=
  l.foldl (fun st p => st.updateWithQualifiedDate p.1 p.2) s

/-- The FocusSession entity of src/modules/streaks/domain/focus-session:
sessionId, userId, UTC start and end instants, duration in minutes, an IANA
timezone (modelled by its fixed UTC offset in milliseconds) and
createdAt. -/
structure FocusSession where
  sessionId : String
  userId : String
  startTime : Int
  endTime : Int
  durationMinutes : Int
  timezone : Int
  createdAt : Int
deriving Repr, DecidableEq

namespace FocusSession

/-- The checks of FocusSessionPropsSchema: nonempty session id and a
positive integer duration (z.number().int().positive()).  The z.uuid()
check on userId and the z.string().min(1) on the timezone identifier are
format checks on strings outside this numeric model; userId is modelled as
nonempty and the timezone is already an offset here. -/
def schemaCheck (s : FocusSession) : Bool :=
  s.sessionId ≠ "" && s.userId ≠ "" && 0 < s.durationMinutes

/-- FocusSession.create: zod parse first (a failure throws), then the
explicit business rule that endTime must be strictly after startTime, then
the private constructor, which copies the fields verbatim. -/
def create (s : FocusSession) : Except DomainError FocusSession :=
  if schemaCheck s then
    if s.endTime ≤ s.startTime then .error .endNotAfterStart else .ok s
  else .error .zodError

/-- FocusSession.createNew: computes durationMinutes with
differenceInMinutes(endTime, startTime) and calls create. -/
def createNew (sessionId userId : String) (startTime endTime : Int)
    (timezone : Int) (now : Int) : Except DomainError FocusSession :=
  create { sessionId := sessionId, userId := userId, startTime := startTime,
           endTime := endTime,
           durationMinutes := minutesBetween endTime startTime,
           timezone := timezone, createdAt := now }

/-- FocusSession.getQualifiedDate: the civil date (a YYYY-MM-DD string in
the source, here the civil day index) of the session start in the session
timezone: format of toZonedTime(startTime, timezone). -/
def getQualifiedDate (s : FocusSession) : Int :=
  civilDay (s.startTime + s.timezone)

/-- One iteration of the split loop builds this record and passes it to
FocusSession.create: currentEnd is endOfDay(currentStart) clamped to the
zoned end (the let bindings currentDayEnd, currentEnd, utcSegmentStart and
utcSegmentEnd of the source are inlined), both bounds are converted back
to UTC by subtracting the offset, the duration is the truncated minute
difference of the UTC bounds, and the id is the session id with the
-day{index} suffix. -/
def segRecord (s : FocusSession) (zonedEnd currentStart : Int)
    (segmentIndex : Nat) : FocusSession :=
  { sessionId := s.sessionId ++ "-day" ++ toString segmentIndex,
    userId := s.userId,
    startTime := currentStart - s.timezone,
    endTime :=
      (if endOfDay currentStart < zonedEnd then endOfDay currentStart
       else zonedEnd) - s.timezone,
    durationMinutes :=
      minutesBetween
        ((if endOfDay currentStart < zonedEnd then endOfDay currentStart
          else zonedEnd) - s.timezone)
        (currentStart - s.timezone),
    timezone := s.timezone, createdAt := s.createdAt }

/-- The while loop of FocusSession.splitByDay, with an explicit fuel
argument for the recursion.  State per iteration: the zoned cursor
currentStart and the segment index.  While currentStart is before the
zoned end: build the segment of the current civil day through
FocusSession.create (which can throw), then advance the cursor to the
next midnight.  splitByDay always supplies enough fuel for the loop to
reach its exit condition, so the fuel zero case is unreachable from
splitByDay. -/
def splitLoop (s : FocusSession) (zonedEnd : Int) :
    Nat → Int → Nat → Except DomainError (List FocusSession)
  | 0, _, _ => .ok []
  | fuel + 1, currentStart, segmentIndex =>
    if currentStart < zonedEnd then
      match create (segRecord s zonedEnd currentStart segmentIndex) with
      | .error e => .error e
      | .ok seg =>
        match splitLoop s zonedEnd fuel (startOfDay currentStart + dayMs)
                (segmentIndex + 1) with
        | .error e => .error e
        | .ok rest => .ok (seg :: rest)
    else .ok []

/-- Fuel that provably outlasts the split loop: one more than the number
of whole days between the midnight before the zoned start and the zoned
end. -/
def splitFuel (zonedStart zonedEnd : Int) : Nat :=
  (zonedEnd - startOfDay zonedStart).toNat / dayMs.toNat + 1

/-- FocusSession.splitByDay: convert the UTC bounds to zoned wall clock
values (zonedStart and zonedEnd in the source), return the session itself
unchanged when the zoned end is not after the end of the civil day of the
zoned start (startDayEnd), otherwise run the splitting loop from the zoned
start with segment index 0. -/
def splitByDay (s : FocusSession) : Except DomainError (List FocusSession) :=
  if endOfDay (s.startTime + s.timezone) < s.endTime + s.timezone then
    splitLoop s (s.endTime + s.timezone)
      (splitFuel (s.startTime + s.timezone) (s.endTime + s.timezone))
      (s.startTime + s.timezone) 0
  else .ok [s]

end FocusSession

/-- The in-memory focus session repository: a map from session id to
session, modelled as an insertion ordered association list. -/
abbrev SessionStore := List FocusSession

/-- InMemoryFocusSessionRepository.save: throws
FocusSessionAlreadyExistsError when the session id is already present,
otherwise stores the session. -/
def sessionSave (store : SessionStore) (s : FocusSession) :
    Except DomainError SessionStore :=
  if store.any (fun t => t.sessionId == s.sessionId) then
    .error (.focusSessionAlreadyExists s.sessionId)
  else .ok (store ++ [s])

/-- Save a list of segments one by one, as the loop in
AcceptFocusSessionCommandHandler.execute does; the first duplicate id
aborts the loop with the error. -/
def saveAll (store : SessionStore) : List FocusSession →
    Except DomainError SessionStore
  | [] => .ok store
  | seg :: rest =>
    match sessionSave store seg with
    | .error e => .error e
    | .ok store1 => saveAll store1 rest

/-- InMemoryFocusSessionRepository.findById. -/
def findById (store : SessionStore) (sessionId : String) :
    Option FocusSession :=
  store.find? (fun t => t.sessionId == sessionId)

/-- InMemoryFocusSessionRepository.getTotalMinutesForDate: the sum of the
durations of the stored sessions of the user whose qualified date is the
given civil date (the timezone argument of the source is ignored by the
repository). -/
def getTotalMinutesForDate (store : SessionStore) (userId : String)
    (date : Int) : Int :=
  ((store.filter (fun t => t.userId == userId &&
      t.getQualifiedDate == date)).map (fun t => t.durationMinutes)).sum

/-- The in-memory user streak repository: userId keyed association list. -/
abbrev StreakStore := List (String × UserStreak)

/-- InMemoryUserStreakRepository.findByUserId. -/
def findStreakByUserId (store : StreakStore) (userId : String) :
    Option UserStreak :=
  (List.find? (fun p => p.1 == userId) store).map (fun p => p.2)

/-- InMemoryUserStreakRepository.findOrCreate: the stored streak, or a
fresh zero aggregate.  In the source the fresh aggregate is also inserted
into the map; the handler saves the final aggregate under the same key
afterwards in every run that reaches the save, so the net store effect is
the single upsert performed by streakSave below. -/
def findOrCreate (store : StreakStore) (userId : String) (now : Int) :
    UserStreak :=
  match findStreakByUserId store userId with
  | some s => s
  | none => UserStreak.createNew userId now

/-- InMemoryUserStreakRepository.save: Map.set keyed by userId. -/
def streakSave (store : StreakStore) (s : UserStreak) : StreakStore :=
  if store.any (fun p => p.1 == s.userId) then
    store.map (fun p => if p.1 == s.userId then (p.1, s) else p)
  else store ++ [(s.userId, s)]

/-- Insert a date into an ascending duplicate free list, keeping it
ascending and duplicate free. -/
def insertSortedNoDup (d : Int) : List Int → List Int
  | [] => [d]
  | x :: xs =>
    if d < x then d :: x :: xs
    else if d = x then x :: xs
    else x :: insertSortedNoDup d xs

/-- The unique dates of the segments in ascending order:
Array.from(new Set(dates)).sort() of the source (YYYY-MM-DD strings of one
era sort lexicographically in chronological order, matching the order of
the civil day indexes). -/
def uniqueSortedDates (segs : List FocusSession) : List Int :=
  (segs.map FocusSession.getQualifiedDate).foldr insertSortedNoDup []

/-- The QUALIFIED_DAY_THRESHOLD_MINUTES constant of the command handler. -/
def QUALIFIED_DAY_THRESHOLD_MINUTES : Int := 30

/-- AcceptFocusSessionCommandHandler.updateUserStreak (without the final
repository save, which execute below performs on the result): for each
unique civil date of the new segments in ascending order, read the total
minutes of the user on that date from the session store and, when the
total reaches the threshold, feed the date to updateWithQualifiedDate. -/
def updateUserStreak (store : SessionStore) (userId : String)
    (segs : List FocusSession) (streak : UserStreak) (now : Int) :
    UserStreak :=
  (uniqueSortedDates segs).foldl
    (fun st date =>
      if QUALIFIED_DAY_THRESHOLD_MINUTES ≤
          getTotalMinutesForDate store userId date then
        st.updateWithQualifiedDate date now
      else st)
    streak

/-- The props of AcceptFocusSessionCommand that the handler reads (the
correlationId is only used for logging glue and is omitted). -/
structure AcceptCmd where
  sessionId : String
  userId : String
  startTime : Int
  endTime : Int
  timezone : Int
deriving Repr, DecidableEq

/-- The mutable state the handler acts on: the session store and the
streak store. -/
structure AppState where
  sessions : SessionStore
  streaks : StreakStore

/-- AcceptFocusSessionCommandHandler.execute: return early when a session
with the given id already exists; otherwise create the session entity,
split it by civil day, save every segment (a duplicate segment id throws
out of the handler: there is no catch in execute), then update and save
the user streak.  Every call of dateProvider.now() during one execution
returns the same clock value now. -/
def execute (now : Int) (cmd : AcceptCmd) (st : AppState) :
    Except DomainError AppState :=
  match findById st.sessions cmd.sessionId with
  | some _ => .ok st
  | none =>
    match FocusSession.createNew cmd.sessionId cmd.userId cmd.startTime
        cmd.endTime cmd.timezone now with
    | .error e => .error e
    | .ok session =>
      match session.splitByDay with
      | .error e => .error e
      | .ok segments =>
        match saveAll st.sessions segments with
        | .error e => .error e
        | .ok sessions1 =>
          let streak := findOrCreate st.streaks cmd.userId now
          let streak1 := updateUserStreak sessions1 cmd.userId segments
            streak now
          .ok { sessions := sessions1,
                streaks := streakSave st.streaks streak1 }

/-- The result shape of GetUserStreakQuery. -/
structure UserStreakResult where
  userId : String
  currentStreak : Int
  longestStreak : Int
  lastQualifiedDate : Option Int
  qualifiedDaysCount : Int
deriving Repr, DecidableEq

/-- GetUserStreakQueryHandler.execute: look the user streak up and return
its fields, or the zero valued result when no streak is stored.  The
handler has no error path of its own. -/
def getUserStreak (store : StreakStore) (userId : String) :
    UserStreakResult :=
  match findStreakByUserId store userId with
  | none =>
      { userId := userId, currentStreak := 0, longestStreak := 0,
        lastQualifiedDate := none, qualifiedDaysCount := 0 }
  | some s =>
      { userId := s.userId, currentStreak := s.currentStreak,
        longestStreak := s.longestStreak,
        lastQualifiedDate := s.lastQualifiedDate,
        qualifiedDaysCount := s.qualifiedDaysCount }

/-- The upper end of the union of the zoned segment intervals produced by
the split loop: the zoned session end, except that when the zoned end
falls exactly on a midnight the loop stops at the last millisecond of the
previous day. -/
def unionTop (zonedEnd : Int) : Int :=
  if zonedEnd % dayMs = 0 then zonedEnd - 1 else zonedEnd

/-- The shape of the list of segments built by the split loop from the
zoned cursor cs: the list is empty exactly when the loop guard fails, and
otherwise the head segment spans, in zoned time, from cs to the end of the
civil day of cs clamped to the zoned end, and the tail continues from the
following midnight. -/
def segChain (off zonedEnd : Int) : Int → List FocusSession → Prop
  | cs, [] => zonedEnd ≤ cs
  | cs, seg :: rest =>
      cs < zonedEnd ∧
      seg.startTime + off = cs ∧
      seg.endTime + off =
        (if endOfDay cs < zonedEnd then endOfDay cs else zonedEnd) ∧
      segChain off zonedEnd (startOfDay cs + dayMs) rest

/-- The data model invariant of the streak aggregate that the transition
preserves: currentStreak never exceeds longestStreak, a non null
lastQualifiedDate comes with a positive currentStreak, and a null
lastQualifiedDate comes with an entirely zero history. -/
def StreakInv (s : UserStreak) : Prop :=
  s.currentStreak ≤ s.longestStreak ∧
  (s.lastQualifiedDate ≠ none → 1 ≤ s.currentStreak) ∧
  (s.lastQualifiedDate = none →
    s.currentStreak = 0 ∧ s.longestStreak = 0 ∧ s.qualifiedDaysCount = 0)

/-- A concrete two civil day session, 23:00 to 01:00 UTC, used as the
witness input for the splitting claims. -/
def wSession : FocusSession :=
  { sessionId := "s", userId := "u1", startTime := 82800000,
    endTime := 90000000, durationMinutes := 120, timezone := 0,
    createdAt := 0 }

/-- The first segment splitByDay produces for wSession. -/
def wSeg0 : FocusSession :=
  { sessionId := "s-day0", userId := "u1", startTime := 82800000,
    endTime := 86399999, durationMinutes := 59, timezone := 0,
    createdAt := 0 }

/-- The second segment splitByDay produces for wSession. -/
def wSeg1 : FocusSession :=
  { sessionId := "s-day1", userId := "u1", startTime := 86400000,
    endTime := 90000000, durationMinutes := 60, timezone := 0,
    createdAt := 0 }

end Streaks

namespace Streaks

/-! Arithmetic facts about the embedded calendar functions. -/

theorem startOfDay_le (t : Int) : startOfDay t ≤ t := by
  simp only [startOfDay, dayMs]
  omega

theorem lt_startOfDay_add (t : Int) : t < startOfDay t + dayMs := by
  simp only [startOfDay, dayMs]
  omega

theorem le_endOfDay (t : Int) : t ≤ endOfDay t := by
  simp only [endOfDay, startOfDay, dayMs]
  omega

theorem startOfDay_le_endOfDay (t : Int) : startOfDay t ≤ endOfDay t := by
  simp only [endOfDay, startOfDay, dayMs]
  omega

theorem startOfDay_add_dayMs (t : Int) :
    startOfDay (t + dayMs) = startOfDay t + dayMs := by
  simp only [startOfDay, dayMs]
  omega

theorem startOfDay_startOfDay (t : Int) :
    startOfDay (startOfDay t + dayMs) = startOfDay t + dayMs := by
  simp only [startOfDay, dayMs]
  omega

theorem civilDay_eq_of_between {a t : Int} (h1 : startOfDay a ≤ t)
    (h2 : t ≤ endOfDay a) : civilDay t = civilDay a := by
  simp only [startOfDay, endOfDay, civilDay, dayMs] at *
  omega

theorem civilDay_next_midnight (cs : Int) :
    civilDay (startOfDay cs + dayMs) = civilDay cs + 1 := by
  simp only [startOfDay, civilDay, dayMs]
  omega

/-! Facts about the streak transition, supporting the claims below. -/

theorem streakInv_createNew (u : String) (now : Int) :
    StreakInv (UserStreak.createNew u now) := by
  simp [StreakInv, UserStreak.createNew]

theorem streakInv_update (s : UserStreak) (d now : Int) (h : StreakInv s) :
    StreakInv (s.updateWithQualifiedDate d now) := by
  obtain ⟨h1, h2, h3⟩ := h
  cases hl : s.lastQualifiedDate with
  | none =>
      simp [UserStreak.updateWithQualifiedDate, hl, StreakInv]
  | some last =>
      have hc : 1 ≤ s.currentStreak := h2 (by simp [hl])
      simp only [UserStreak.updateWithQualifiedDate, hl, StreakInv]
      split_ifs <;> simp_all <;> omega

theorem update_mono (s : UserStreak) (d now : Int) (h : StreakInv s) :
    s.longestStreak ≤ (s.updateWithQualifiedDate d now).longestStreak ∧
    s.qualifiedDaysCount ≤
      (s.updateWithQualifiedDate d now).qualifiedDaysCount := by
  obtain ⟨h1, h2, h3⟩ := h
  cases hl : s.lastQualifiedDate with
  | none =>
      obtain ⟨hz1, hz2, hz3⟩ := h3 hl
      simp [UserStreak.updateWithQualifiedDate, hl]
      omega
  | some last =>
      simp only [UserStreak.updateWithQualifiedDate, hl]
      split_ifs <;> simp_all
      all_goals omega

theorem runUpdates_inv_mono (l : List (Int × Int)) (s : UserStreak)
    (h : StreakInv s) :
    StreakInv (runUpdates s l) ∧
    s.longestStreak ≤ (runUpdates s l).longestStreak ∧
    s.qualifiedDaysCount ≤ (runUpdates s l).qualifiedDaysCount := by
  induction l generalizing s with
  | nil => exact ⟨h, le_refl _, le_refl _⟩
  | cons p rest ih =>
      have hstep := streakInv_update s p.1 p.2 h
      have hmono := update_mono s p.1 p.2 h
      have hrest := ih (s.updateWithQualifiedDate p.1 p.2) hstep
      have hrw : runUpdates s (p :: rest) =
          runUpdates (s.updateWithQualifiedDate p.1 p.2) rest := rfl
      rw [hrw]
      exact ⟨hrest.1, le_trans hmono.1 hrest.2.1,
        le_trans hmono.2 hrest.2.2⟩

theorem runUpdates_append (s : UserStreak) (p q : List (Int × Int)) :
    runUpdates s (p ++ q) = runUpdates (runUpdates s p) q := by
  simp [runUpdates, List.foldl_append]

/-- C3, counterexample.  The claim states that on an aggregate with null
lastQualifiedDate the transition yields longestStreak =
max(longestStreak, 1) and qualifiedDaysCount incremented by one.  The
first branch of updateWithQualifiedDate instead overwrites both with the
constant 1.  The starting aggregate (longestStreak 5, qualifiedDaysCount
7, lastQualifiedDate null) passes UserStreak.create, and it is also the
shape resetStreak leaves behind after real activity; the transition then
returns longestStreak 1 instead of max 5 1 = 5 and qualifiedDaysCount 1
instead of 7 + 1 = 8. -/
theorem updateFirstBranch_cex :
    UserStreak.create
      { userId := "550e8400-e29b-41d4-a716-446655440000",
        currentStreak := 0, longestStreak := 5, lastQualifiedDate := none,
        qualifiedDaysCount := 7, updatedAt := 0 } =
      .ok { userId := "550e8400-e29b-41d4-a716-446655440000",
            currentStreak := 0, longestStreak := 5,
            lastQualifiedDate := none, qualifiedDaysCount := 7,
            updatedAt := 0 } ∧
    UserStreak.updateWithQualifiedDate
      { userId := "550e8400-e29b-41d4-a716-446655440000",
        currentStreak := 0, longestStreak := 5, lastQualifiedDate := none,
        qualifiedDaysCount := 7, updatedAt := 0 } 20000 99 =
      { userId := "550e8400-e29b-41d4-a716-446655440000",
        currentStreak := 1, longestStreak := 1,
        lastQualifiedDate := some 20000, qualifiedDaysCount := 1,
        updatedAt := 99 } ∧
    ((1 : Int) ≠ max 5 1 ∧ (1 : Int) ≠ 7 + 1) := by
  refine ⟨rfl, rfl, by decide⟩

/-- C3, amended.  For every aggregate whose lastQualifiedDate is null,
updateWithQualifiedDate sets currentStreak to 1, longestStreak to 1 (not
to the maximum of the previous longestStreak and 1), lastQualifiedDate to
the qualifying date, and qualifiedDaysCount to 1 (not to the previous
count plus one); updatedAt becomes the provided clock value. -/
theorem updateFirstBranch_spec (s : UserStreak) (d now : Int)
    (h : s.lastQualifiedDate = none) :
    s.updateWithQualifiedDate d now =
      { s with currentStreak := 1, longestStreak := 1,
               lastQualifiedDate := some d, qualifiedDaysCount := 1,
               updatedAt := now } := by
  simp [UserStreak.updateWithQualifiedDate, h]

/-- C3, witness for the amended theorem at a concrete aggregate. -/
theorem updateFirstBranch_spec_witness :
    UserStreak.updateWithQualifiedDate
      { userId := "u1", currentStreak := 0, longestStreak := 0,
        lastQualifiedDate := none, qualifiedDaysCount := 0,
        updatedAt := 0 } 20100 7 =
      { userId := "u1", currentStreak := 1, longestStreak := 1,
        lastQualifiedDate := some 20100, qualifiedDaysCount := 1,
        updatedAt := 7 } :=
  updateFirstBranch_spec
    { userId := "u1", currentStreak := 0, longestStreak := 0,
      lastQualifiedDate := none, qualifiedDaysCount := 0, updatedAt := 0 }
    20100 7 rfl

/-- C4, counterexample.  The claim quantifies over every sequence of
updateWithQualifiedDate and resetStreak operations and asserts that
longestStreak and qualifiedDaysCount never decrease.  After two
consecutive qualifying days the aggregate reaches longestStreak 2 and
qualifiedDaysCount 2; resetStreak preserves both but nulls
lastQualifiedDate, and the next qualifying date re-enters the first branch
of the transition, which overwrites both down to 1. -/
theorem streakMonotone_cex :
    (runOps (UserStreak.createNew "u1" 0)
        [.update 10 0, .update 11 0]).longestStreak = 2 ∧
    (runOps (UserStreak.createNew "u1" 0)
        [.update 10 0, .update 11 0]).qualifiedDaysCount = 2 ∧
    (runOps (UserStreak.createNew "u1" 0)
        [.update 10 0, .update 11 0, .reset 0, .update 13 0]).longestStreak
      = 1 ∧
    (runOps (UserStreak.createNew "u1" 0)
        [.update 10 0, .update 11 0, .reset 0,
          .update 13 0]).qualifiedDaysCount = 1 := by
  refine ⟨rfl, rfl, rfl, rfl⟩

/-- C4, amended.  Starting from the zero valued aggregate, along any
sequence of updateWithQualifiedDate operations (no resetStreak),
longestStreak stays at least as large as every currentStreak and every
longestStreak value observed at any earlier point of the sequence, and
qualifiedDaysCount never decreases.  Interleaving resetStreak breaks the
property only through the subsequent first-ever branch, as the
counterexample shows. -/
theorem streakMonotone_spec (u : String) (now0 : Int)
    (l p q : List (Int × Int)) (hl : l = p ++ q) :
    (runUpdates (UserStreak.createNew u now0) p).currentStreak ≤
      (runUpdates (UserStreak.createNew u now0) l).longestStreak ∧
    (runUpdates (UserStreak.createNew u now0) p).longestStreak ≤
      (runUpdates (UserStreak.createNew u now0) l).longestStreak ∧
    (runUpdates (UserStreak.createNew u now0) p).qualifiedDaysCount ≤
      (runUpdates (UserStreak.createNew u now0) l).qualifiedDaysCount := by
  subst hl
  have hp := runUpdates_inv_mono p (UserStreak.createNew u now0)
    (streakInv_createNew u now0)
  have hq := runUpdates_inv_mono q (runUpdates (UserStreak.createNew u now0) p)
    hp.1
  rw [runUpdates_append]
  exact ⟨le_trans hp.1.1 hq.2.1, hq.2.1, hq.2.2⟩

/-- C4, witness: a two day sequence with its one day proper initial part;
the observed currentStreak 1 and longestStreak 1 after the first update
are below the final longestStreak 2, and qualifiedDaysCount grows from 1
to 2. -/
theorem streakMonotone_spec_witness :
    (runUpdates (UserStreak.createNew "u1" 0) [(10, 0)]).currentStreak ≤
      (runUpdates (UserStreak.createNew "u1" 0)
        [(10, 0), (11, 0)]).longestStreak ∧
    (runUpdates (UserStreak.createNew "u1" 0) [(10, 0)]).longestStreak ≤
      (runUpdates (UserStreak.createNew "u1" 0)
        [(10, 0), (11, 0)]).longestStreak ∧
    (runUpdates (UserStreak.createNew "u1" 0) [(10, 0)]).qualifiedDaysCount ≤
      (runUpdates (UserStreak.createNew "u1" 0)
        [(10, 0), (11, 0)]).qualifiedDaysCount :=
  streakMonotone_spec "u1" 0 [(10, 0), (11, 0)] [(10, 0)] [(11, 0)] rfl

/-- C7, confirmed.  On an aggregate with a non null lastQualifiedDate, a
qualifying date strictly earlier than the stored one (negative calendar
day difference) increments qualifiedDaysCount by exactly one and leaves
currentStreak, longestStreak and lastQualifiedDate unchanged; only
updatedAt is refreshed. -/
theorem lateDateIsolation_spec (s : UserStreak) (last d now : Int)
    (hlast : s.lastQualifiedDate = some last) (hd : d - last < 0) :
    (s.updateWithQualifiedDate d now).currentStreak = s.currentStreak ∧
    (s.updateWithQualifiedDate d now).longestStreak = s.longestStreak ∧
    (s.updateWithQualifiedDate d now).lastQualifiedDate = some last ∧
    (s.updateWithQualifiedDate d now).qualifiedDaysCount =
      s.qualifiedDaysCount + 1 ∧
    (s.updateWithQualifiedDate d now).updatedAt = now := by
  have hne : ¬ (d - last = 0) := by omega
  simp [UserStreak.updateWithQualifiedDate, hlast, hne, hd]

/-- C7, witness: the scenario of the specification (streak 5, last
qualifying date index 100, late date 97). -/
theorem lateDateIsolation_spec_witness :
    (UserStreak.updateWithQualifiedDate
        { userId := "u1", currentStreak := 5, longestStreak := 5,
          lastQualifiedDate := some 100, qualifiedDaysCount := 9,
          updatedAt := 0 } 97 42).currentStreak = 5 ∧
    (UserStreak.updateWithQualifiedDate
        { userId := "u1", currentStreak := 5, longestStreak := 5,
          lastQualifiedDate := some 100, qualifiedDaysCount := 9,
          updatedAt := 0 } 97 42).longestStreak = 5 ∧
    (UserStreak.updateWithQualifiedDate
        { userId := "u1", currentStreak := 5, longestStreak := 5,
          lastQualifiedDate := some 100, qualifiedDaysCount := 9,
          updatedAt := 0 } 97 42).lastQualifiedDate = some 100 ∧
    (UserStreak.updateWithQualifiedDate
        { userId := "u1", currentStreak := 5, longestStreak := 5,
          lastQualifiedDate := some 100, qualifiedDaysCount := 9,
          updatedAt := 0 } 97 42).qualifiedDaysCount = 9 + 1 ∧
    (UserStreak.updateWithQualifiedDate
        { userId := "u1", currentStreak := 5, longestStreak := 5,
          lastQualifiedDate := some 100, qualifiedDaysCount := 9,
          updatedAt := 0 } 97 42).updatedAt = 42 := by
  have h := lateDateIsolation_spec
    { userId := "u1", currentStreak := 5, longestStreak := 5,
      lastQualifiedDate := some 100, qualifiedDaysCount := 9,
      updatedAt := 0 } 100 97 42 rfl (by decide)
  exact ⟨h.1, h.2.1, h.2.2.1, h.2.2.2.1, h.2.2.2.2⟩

/-- C8, counterexample.  The claim states that constructing an aggregate
with a non null lastQualifiedDate paired with currentStreak 0 that did not
arise from an explicit reset fails with CorruptAggregateState.
UserStreakPropsSchema has no cross field rule: UserStreak.create accepts
exactly this shape (for instance when such a row is loaded from storage,
where it never arose from an in-process reset), returning the aggregate
unchanged instead of failing. -/
theorem userStreakCreate_cex :
    UserStreak.create
      { userId := "550e8400-e29b-41d4-a716-446655440000",
        currentStreak := 0, longestStreak := 5,
        lastQualifiedDate := some 20100, qualifiedDaysCount := 25,
        updatedAt := 0 } =
      .ok { userId := "550e8400-e29b-41d4-a716-446655440000",
            currentStreak := 0, longestStreak := 5,
            lastQualifiedDate := some 20100, qualifiedDaysCount := 25,
            updatedAt := 0 } := rfl

/-- C8, amended.  UserStreak.create rejects any negative counter with the
schema validation error (a thrown zod parse error; the source defines no
CorruptAggregateState error and performs no clamping), and accepts every
aggregate whose counters are nonnegative and whose user id passes the
schema, including a non null lastQualifiedDate paired with currentStreak
0. -/
theorem userStreakCreate_spec (s : UserStreak)
    (hid : s.userId ≠ "") :
    ((s.currentStreak < 0 ∨ s.longestStreak < 0 ∨
        s.qualifiedDaysCount < 0) →
      UserStreak.create s = .error .zodError) ∧
    (0 ≤ s.currentStreak → 0 ≤ s.longestStreak →
      0 ≤ s.qualifiedDaysCount → UserStreak.create s = .ok s) := by
  constructor
  · intro hneg
    unfold UserStreak.create
    split
    · next hchk =>
        exfalso
        simp only [UserStreak.schemaCheck, Bool.and_eq_true,
          decide_eq_true_eq] at hchk
        omega
    · rfl
  · intro h1 h2 h3
    unfold UserStreak.create
    split
    · rfl
    · next hchk =>
        exfalso
        apply hchk
        simp only [UserStreak.schemaCheck, Bool.and_eq_true,
          decide_eq_true_eq]
        exact ⟨⟨⟨by simpa using hid, h1⟩, h2⟩, h3⟩

/-- C8, witness: a negative currentStreak is rejected, and the non null
lastQualifiedDate with currentStreak 0 shape is accepted. -/
theorem userStreakCreate_spec_witness :
    UserStreak.create
      { userId := "u1", currentStreak := -1, longestStreak := 10,
        lastQualifiedDate := some 20100, qualifiedDaysCount := 25,
        updatedAt := 0 } = .error .zodError ∧
    UserStreak.create
      { userId := "u1", currentStreak := 0, longestStreak := 5,
        lastQualifiedDate := some 20100, qualifiedDaysCount := 25,
        updatedAt := 0 } =
      .ok { userId := "u1", currentStreak := 0, longestStreak := 5,
            lastQualifiedDate := some 20100, qualifiedDaysCount := 25,
            updatedAt := 0 } :=
  ⟨(userStreakCreate_spec
      { userId := "u1", currentStreak := -1, longestStreak := 10,
        lastQualifiedDate := some 20100, qualifiedDaysCount := 25,
        updatedAt := 0 } (by decide)).1 (by left; decide),
   (userStreakCreate_spec
      { userId := "u1", currentStreak := 0, longestStreak := 5,
        lastQualifiedDate := some 20100, qualifiedDaysCount := 25,
        updatedAt := 0 } (by decide)).2 (by decide) (by decide) (by decide)⟩

/-- C9, confirmed.  GetUserStreakQueryHandler.execute never errors for an
unknown user: when the streak repository holds nothing for the user id it
returns the zero valued aggregate. -/
theorem getStreakUnknownUser_spec (store : StreakStore) (u : String)
    (h : findStreakByUserId store u = none) :
    getUserStreak store u =
      { userId := u, currentStreak := 0, longestStreak := 0,
        lastQualifiedDate := none, qualifiedDaysCount := 0 } := by
  simp [getUserStreak, h]

/-- C9, witness: the empty store. -/
theorem getStreakUnknownUser_spec_witness :
    getUserStreak [] "u1" =
      { userId := "u1", currentStreak := 0, longestStreak := 0,
        lastQualifiedDate := none, qualifiedDaysCount := 0 } :=
  getStreakUnknownUser_spec [] "u1" rfl

/-- C10, confirmed (implicit claim).  updateWithQualifiedDate sets
updatedAt to the clock value of the injected date provider in every
branch, including the same day and out of order branches that change no
other streak field, and neither updateWithQualifiedDate nor resetStreak
ever changes userId. -/
theorem updateFrame_spec (s : UserStreak) (d now : Int) :
    (s.updateWithQualifiedDate d now).updatedAt = now ∧
    (s.updateWithQualifiedDate d now).userId = s.userId ∧
    (s.resetStreak now).userId = s.userId ∧
    (s.resetStreak now).updatedAt = now := by
  cases hl : s.lastQualifiedDate with
  | none => simp [UserStreak.updateWithQualifiedDate, UserStreak.resetStreak, hl]
  | some last =>
      simp only [UserStreak.updateWithQualifiedDate, UserStreak.resetStreak, hl]
      split_ifs <;> simp

/-- C5, confirmed.  The handler threshold constant is 30, and during the
streak update pass over the unique civil dates of the new segments a date
whose stored minute total is exactly 30 is fed to updateWithQualifiedDate
while a date whose total is 29 triggers no transition. -/
theorem thresholdBoundary_spec (store : SessionStore) (u : String)
    (streak : UserStreak) (now d : Int) (segs : List FocusSession)
    (hdates : uniqueSortedDates segs = [d]) :
    QUALIFIED_DAY_THRESHOLD_MINUTES = 30 ∧
    (getTotalMinutesForDate store u d = 30 →
      updateUserStreak store u segs streak now =
        streak.updateWithQualifiedDate d now) ∧
    (getTotalMinutesForDate store u d = 29 →
      updateUserStreak store u segs streak now = streak) := by
  refine ⟨rfl, ?_, ?_⟩
  · intro h30
    simp [updateUserStreak, hdates, h30, QUALIFIED_DAY_THRESHOLD_MINUTES]
  · intro h29
    simp [updateUserStreak, hdates, h29, QUALIFIED_DAY_THRESHOLD_MINUTES]

/-- C5, witness: a lone 30 minute segment on day 0 qualifies the day; a
lone 29 minute segment does not. -/
theorem thresholdBoundary_spec_witness :
    (updateUserStreak
        [{ sessionId := "a", userId := "u1", startTime := 0,
           endTime := 1800000, durationMinutes := 30, timezone := 0,
           createdAt := 0 }] "u1"
        [{ sessionId := "a", userId := "u1", startTime := 0,
           endTime := 1800000, durationMinutes := 30, timezone := 0,
           createdAt := 0 }] (UserStreak.createNew "u1" 0) 7 =
      (UserStreak.createNew "u1" 0).updateWithQualifiedDate 0 7) ∧
    (updateUserStreak
        [{ sessionId := "b", userId := "u1", startTime := 0,
           endTime := 1740000, durationMinutes := 29, timezone := 0,
           createdAt := 0 }] "u1"
        [{ sessionId := "b", userId := "u1", startTime := 0,
           endTime := 1740000, durationMinutes := 29, timezone := 0,
           createdAt := 0 }] (UserStreak.createNew "u1" 0) 7 =
      UserStreak.createNew "u1" 0) :=
  ⟨(thresholdBoundary_spec
      [{ sessionId := "a", userId := "u1", startTime := 0,
         endTime := 1800000, durationMinutes := 30, timezone := 0,
         createdAt := 0 }] "u1" (UserStreak.createNew "u1" 0) 7 0
      [{ sessionId := "a", userId := "u1", startTime := 0,
         endTime := 1800000, durationMinutes := 30, timezone := 0,
         createdAt := 0 }] rfl).2.1 rfl,
   (thresholdBoundary_spec
      [{ sessionId := "b", userId := "u1", startTime := 0,
         endTime := 1740000, durationMinutes := 29, timezone := 0,
         createdAt := 0 }] "u1" (UserStreak.createNew "u1" 0) 7 0
      [{ sessionId := "b", userId := "u1", startTime := 0,
         endTime := 1740000, durationMinutes := 29, timezone := 0,
         createdAt := 0 }] rfl).2.2 rfl⟩

/-- C1, evaluation at the failing input.  A session from 23:00 to 01:00
UTC (start 82800000, end 90000000, offset 0) is accepted: the first call
persists the two segments s-day0 and s-day1 and the streak reaches 2.  A
retry of the same command then fails: the idempotency check looks up the
original session id s, which was never persisted (only the derived segment
ids were), so the handler re-splits the session and the save of s-day0
throws FocusSessionAlreadyExistsError out of execute, instead of the
documented successful no-op. -/
theorem acceptSessionRetry_cex :
    execute 0 { sessionId := "s", userId := "u1", startTime := 82800000,
                endTime := 90000000, timezone := 0 }
        { sessions := [], streaks := [] } =
      .ok { sessions :=
              [{ sessionId := "s-day0", userId := "u1",
                 startTime := 82800000, endTime := 86399999,
                 durationMinutes := 59, timezone := 0, createdAt := 0 },
               { sessionId := "s-day1", userId := "u1",
                 startTime := 86400000, endTime := 90000000,
                 durationMinutes := 60, timezone := 0, createdAt := 0 }],
            streaks :=
              [("u1", { userId := "u1", currentStreak := 2,
                        longestStreak := 2, lastQualifiedDate := some 1,
                        qualifiedDaysCount := 2, updatedAt := 0 })] } ∧
    execute 0 { sessionId := "s", userId := "u1", startTime := 82800000,
                endTime := 90000000, timezone := 0 }
        { sessions :=
            [{ sessionId := "s-day0", userId := "u1",
               startTime := 82800000, endTime := 86399999,
               durationMinutes := 59, timezone := 0, createdAt := 0 },
             { sessionId := "s-day1", userId := "u1",
               startTime := 86400000, endTime := 90000000,
               durationMinutes := 60, timezone := 0, createdAt := 0 }],
          streaks :=
            [("u1", { userId := "u1", currentStreak := 2,
                      longestStreak := 2, lastQualifiedDate := some 1,
                      qualifiedDaysCount := 2, updatedAt := 0 })] } =
      .error (.focusSessionAlreadyExists "s-day0") :=
  ⟨rfl, rfl⟩

/-- C6, evaluation at the failing input.  When the session store already
holds a segment with id t-day0 and the same multi day session is
submitted under the original id t, the repository save throws
FocusSessionAlreadyExistsError and execute, which has no catch around the
save loop, surfaces it as an error to the caller instead of collapsing it
to a successful no-op. -/
theorem duplicateSessionSurfaces_cex :
    execute 0 { sessionId := "t", userId := "u1", startTime := 82800000,
                endTime := 90000000, timezone := 0 }
        { sessions :=
            [{ sessionId := "t-day0", userId := "u1",
               startTime := 82800000, endTime := 86399999,
               durationMinutes := 59, timezone := 0, createdAt := 0 }],
          streaks := [] } =
      .error (.focusSessionAlreadyExists "t-day0") := rfl

/-! Lemmas about the split loop, supporting C2. -/

theorem focusSessionCreate_ok_eq {p q : FocusSession}
    (h : FocusSession.create p = .ok q) : q = p := by
  unfold FocusSession.create at h
  split at h
  · split at h
    · simp at h
    · exact (Except.ok.inj h).symm
  · simp at h

theorem splitLoop_chain (s : FocusSession) (zEnd : Int) :
    ∀ (fuel : Nat) (cs : Int) (idx : Nat) (segs : List FocusSession),
      zEnd ≤ startOfDay cs + (fuel : Int) * dayMs →
      FocusSession.splitLoop s zEnd fuel cs idx = .ok segs →
      segChain s.timezone zEnd cs segs := by
  intro fuel
  induction fuel with
  | zero =>
      intro cs idx segs hfuel hok
      unfold FocusSession.splitLoop at hok
      have hsegs : segs = [] := (Except.ok.inj hok).symm
      subst hsegs
      show zEnd ≤ cs
      have h1 := startOfDay_le cs
      simp only [Nat.cast_zero, zero_mul, add_zero] at hfuel
      omega
  | succ n ih =>
      intro cs idx segs hfuel hok
      unfold FocusSession.splitLoop at hok
      by_cases hcs : cs < zEnd
      · rw [if_pos hcs] at hok
        cases hcr : FocusSession.create (FocusSession.segRecord s zEnd cs idx) with
        | error e => rw [hcr] at hok; simp at hok
        | ok seg =>
            rw [hcr] at hok
            cases hre : FocusSession.splitLoop s zEnd n
                (startOfDay cs + dayMs) (idx + 1) with
            | error e => rw [hre] at hok; simp at hok
            | ok rest =>
                rw [hre] at hok
                simp only at hok
                have hsegs : segs = seg :: rest := (Except.ok.inj hok).symm
                subst hsegs
                have hseg := focusSessionCreate_ok_eq hcr
                subst hseg
                have hfuel2 : zEnd ≤ startOfDay (startOfDay cs + dayMs) +
                    (n : Int) * dayMs := by
                  rw [startOfDay_startOfDay]
                  simp only [dayMs] at hfuel ⊢
                  push_cast at hfuel
                  omega
                refine ⟨hcs, ?_, ?_, ih _ _ _ hfuel2 hre⟩
                · simp only [FocusSession.segRecord]
                  omega
                · simp only [FocusSession.segRecord]
                  split <;> omega
      · rw [if_neg hcs] at hok
        have hsegs : segs = [] := (Except.ok.inj hok).symm
        subst hsegs
        show zEnd ≤ cs
        omega

theorem segChain_chain2 (off zEnd : Int) :
    ∀ (segs : List FocusSession) (cs : Int), segChain off zEnd cs segs →
      List.Chain' (fun a b => b.startTime = a.endTime + 1 ∧
        civilDay (b.startTime + off) = civilDay (a.startTime + off) + 1)
        segs := by
  intro segs
  induction segs with
  | nil => intro cs _; exact List.chain'_nil
  | cons a rest ih =>
      intro cs h
      obtain ⟨h1, h2, h3, h4⟩ := h
      cases rest with
      | nil => exact List.chain'_singleton a
      | cons b rest2 =>
          have hb1 : startOfDay cs + dayMs < zEnd := h4.1
          have hb2 : b.startTime + off = startOfDay cs + dayMs := h4.2.1
          refine List.chain'_cons.mpr ⟨⟨?_, ?_⟩, ih _ h4⟩
          · have hcond : endOfDay cs < zEnd := by
              simp only [endOfDay] at *
              omega
            rw [if_pos hcond] at h3
            simp only [endOfDay] at h3
            omega
          · rw [hb2, h2]
            exact civilDay_next_midnight cs

theorem segChain_one_day (off zEnd : Int) :
    ∀ (segs : List FocusSession) (cs : Int), segChain off zEnd cs segs →
      ∀ seg ∈ segs,
        civilDay (seg.startTime + off) = civilDay (seg.endTime + off) := by
  intro segs
  induction segs with
  | nil => intro cs _ seg hm; cases hm
  | cons a rest ih =>
      intro cs h seg hm
      obtain ⟨h1, h2, h3, h4⟩ := h
      rcases List.mem_cons.mp hm with rfl | hm2
      · rw [h2, h3]
        by_cases hcond : endOfDay cs < zEnd
        · rw [if_pos hcond]
          exact (civilDay_eq_of_between (startOfDay_le_endOfDay cs)
            (le_refl _)).symm
        · rw [if_neg hcond]
          have hA : startOfDay cs ≤ zEnd :=
            le_of_lt (lt_of_le_of_lt (startOfDay_le cs) h1)
          have hB : zEnd ≤ endOfDay cs := not_lt.mp hcond
          exact (civilDay_eq_of_between hA hB).symm
      · exact ih _ h4 seg hm2

theorem segChain_cover (off zEnd : Int) :
    ∀ (segs : List FocusSession) (cs : Int), segChain off zEnd cs segs →
      cs < zEnd → ∀ t : Int,
      (∃ seg ∈ segs, seg.startTime + off ≤ t ∧ t ≤ seg.endTime + off) ↔
        (cs ≤ t ∧ t ≤ unionTop zEnd) := by
  intro segs
  induction segs with
  | nil =>
      intro cs h hlt t
      have h2 : zEnd ≤ cs := h
      exact absurd hlt (not_lt.mpr h2)
  | cons a rest ih =>
      intro cs h hlt t
      obtain ⟨h1, h2, h3, h4⟩ := h
      cases rest with
      | nil =>
          have h5 : zEnd ≤ startOfDay cs + dayMs := h4
          simp only [List.mem_singleton, exists_eq_left]
          rw [h2, h3]
          simp only [unionTop, endOfDay, startOfDay, dayMs] at h5 ⊢
          simp only [startOfDay, dayMs] at *
          split_ifs <;> omega
      | cons b rest2 =>
          have hb1 : startOfDay cs + dayMs < zEnd := h4.1
          have hcond : endOfDay cs < zEnd := by
            simp only [endOfDay] at *
            omega
          rw [if_pos hcond] at h3
          have hih := ih (startOfDay cs + dayMs) h4 hb1
          constructor
          · rintro ⟨seg, hm, hs1, hs2⟩
            rcases List.mem_cons.mp hm with rfl | hm2
            · rw [h2] at hs1
              rw [h3] at hs2
              refine ⟨hs1, ?_⟩
              simp only [unionTop, endOfDay, startOfDay, dayMs] at *
              split_ifs <;> omega
            · have hr := (hih t).mp ⟨seg, hm2, hs1, hs2⟩
              have hA := lt_startOfDay_add cs
              exact ⟨by omega, hr.2⟩
          · rintro ⟨ht1, ht2⟩
            by_cases hsplit : t ≤ endOfDay cs
            · refine ⟨a, List.mem_cons_self a _, by omega, by omega⟩
            · have hge : startOfDay cs + dayMs ≤ t := by
                simp only [endOfDay] at hsplit
                omega
              obtain ⟨seg, hm2, hp1, hp2⟩ := (hih t).mpr ⟨hge, ht2⟩
              exact ⟨seg, List.mem_cons_of_mem a hm2, hp1, hp2⟩

theorem splitFuel_spec (zStart zEnd : Int) (h : startOfDay zStart ≤ zEnd) :
    zEnd ≤ startOfDay zStart +
      ((FocusSession.splitFuel zStart zEnd : Nat) : Int) * dayMs := by
  simp only [FocusSession.splitFuel, startOfDay, dayMs] at *
  push_cast
  omega

/-- C2, counterexample to exact union coverage.  A session whose end
falls exactly on a civil midnight (23:00 to 24:00 UTC) crosses the day
boundary check, and the loop emits a single segment ending at 23:59:59.999;
the union of the returned segment intervals is [82800000, 86399999],
which omits the end instant 86400000 of the original interval, so the
union does not equal [startInstant, endInstant] exactly. -/
theorem splitByDayUnion_cex :
    FocusSession.splitByDay
      { sessionId := "m", userId := "u1", startTime := 82800000,
        endTime := 86400000, durationMinutes := 60, timezone := 0,
        createdAt := 0 } =
      .ok [{ sessionId := "m-day0", userId := "u1", startTime := 82800000,
             endTime := 86399999, durationMinutes := 59, timezone := 0,
             createdAt := 0 }] ∧
    ¬ ((86400000 : Int) ≤ 86399999) :=
  ⟨rfl, by decide⟩

/-- C2, amended.  For every session with a valid interval and every fixed
offset timezone, when splitByDay succeeds the returned segments are
nonempty, ordered by consecutive ascending civil day, contiguous at
millisecond resolution (each segment starts one millisecond after the
previous one ends, hence they never overlap), each segment lies within one
civil day of the session timezone, and the union of the segment intervals
is exactly [startInstant, endInstant] except when the session end falls
exactly on a civil midnight, in which case the final millisecond is
dropped and the union is [startInstant, endInstant - 1] (unionTop names
that upper bound). -/
theorem splitByDay_segments_spec (s : FocusSession) (segs : List FocusSession)
    (hse : s.startTime < s.endTime)
    (hok : s.splitByDay = .ok segs) :
    segs ≠ [] ∧
    List.Chain' (fun a b => b.startTime = a.endTime + 1 ∧
      civilDay (b.startTime + s.timezone) =
        civilDay (a.startTime + s.timezone) + 1) segs ∧
    (∀ seg ∈ segs, civilDay (seg.startTime + s.timezone) =
      civilDay (seg.endTime + s.timezone)) ∧
    (unionTop (s.endTime + s.timezone) = s.endTime + s.timezone ∨
      (unionTop (s.endTime + s.timezone) = s.endTime + s.timezone - 1 ∧
        (s.endTime + s.timezone) % dayMs = 0)) ∧
    (∀ t : Int, (∃ seg ∈ segs, seg.startTime ≤ t ∧ t ≤ seg.endTime) ↔
      (s.startTime ≤ t ∧
        t + s.timezone ≤ unionTop (s.endTime + s.timezone))) := by
  have hut : unionTop (s.endTime + s.timezone) = s.endTime + s.timezone ∨
      (unionTop (s.endTime + s.timezone) = s.endTime + s.timezone - 1 ∧
        (s.endTime + s.timezone) % dayMs = 0) := by
    unfold unionTop
    split_ifs with hmod
    · exact Or.inr ⟨rfl, hmod⟩
    · exact Or.inl rfl
  unfold FocusSession.splitByDay at hok
  by_cases hcond :
      endOfDay (s.startTime + s.timezone) < s.endTime + s.timezone
  · rw [if_pos hcond] at hok
    have hstart_lt : s.startTime + s.timezone < s.endTime + s.timezone :=
      lt_of_le_of_lt (le_endOfDay _) hcond
    have hfuel := splitFuel_spec (s.startTime + s.timezone)
      (s.endTime + s.timezone)
      (le_trans (startOfDay_le _) (le_of_lt hstart_lt))
    have hchain := splitLoop_chain s (s.endTime + s.timezone) _
      (s.startTime + s.timezone) 0 segs hfuel hok
    refine ⟨?_, segChain_chain2 _ _ segs _ hchain,
      segChain_one_day _ _ segs _ hchain, hut, ?_⟩
    · cases segs with
      | nil =>
          have hle : s.endTime + s.timezone ≤ s.startTime + s.timezone :=
            hchain
          exact absurd hstart_lt (not_lt.mpr hle)
      | cons a rest => simp
    · intro t
      have hcov := segChain_cover s.timezone (s.endTime + s.timezone) segs
        (s.startTime + s.timezone) hchain hstart_lt (t + s.timezone)
      constructor
      · rintro ⟨seg, hm, hp1, hp2⟩
        have hr := hcov.mp ⟨seg, hm, by omega, by omega⟩
        exact ⟨by omega, hr.2⟩
      · rintro ⟨ht1, ht2⟩
        obtain ⟨seg, hm, hp1, hp2⟩ := hcov.mpr ⟨by omega, ht2⟩
        exact ⟨seg, hm, by omega, by omega⟩
  · rw [if_neg hcond] at hok
    have hsegs : segs = [s] := (Except.ok.inj hok).symm
    subst hsegs
    have hB : s.endTime + s.timezone ≤ endOfDay (s.startTime + s.timezone) :=
      not_lt.mp hcond
    refine ⟨by simp, List.chain'_singleton s, ?_, hut, ?_⟩
    · intro seg hm
      have hm2 : seg = s := List.mem_singleton.mp hm
      rw [hm2]
      have hA : startOfDay (s.startTime + s.timezone) ≤
          s.endTime + s.timezone :=
        le_trans (startOfDay_le _) (by omega)
      exact (civilDay_eq_of_between hA hB).symm
    · have hutEq : unionTop (s.endTime + s.timezone) =
          s.endTime + s.timezone := by
        have hA := startOfDay_le (s.startTime + s.timezone)
        simp only [unionTop, endOfDay, startOfDay, dayMs] at *
        split_ifs with hmod
        · omega
        · rfl
      rw [hutEq]
      intro t
      simp only [List.mem_singleton, exists_eq_left]
      constructor
      · rintro ⟨hp1, hp2⟩
        exact ⟨hp1, by omega⟩
      · rintro ⟨hp1, hp2⟩
        exact ⟨hp1, by omega⟩

/-- C2, witness: the session from 23:00 to 01:00 UTC (wSession) splits
into the two segments of its two civil days (wSeg0 and wSeg1), and they
satisfy the amended coverage properties. -/
theorem splitByDay_segments_spec_witness :
    ([wSeg0, wSeg1] : List FocusSession) ≠ [] ∧
    List.Chain' (fun a b => b.startTime = a.endTime + 1 ∧
      civilDay (b.startTime + wSession.timezone) =
        civilDay (a.startTime + wSession.timezone) + 1) [wSeg0, wSeg1] ∧
    (∀ seg ∈ ([wSeg0, wSeg1] : List FocusSession),
      civilDay (seg.startTime + wSession.timezone) =
        civilDay (seg.endTime + wSession.timezone)) ∧
    (unionTop (wSession.endTime + wSession.timezone) =
        wSession.endTime + wSession.timezone ∨
      (unionTop (wSession.endTime + wSession.timezone) =
          wSession.endTime + wSession.timezone - 1 ∧
        (wSession.endTime + wSession.timezone) % dayMs = 0)) ∧
    (∀ t : Int,
      (∃ seg ∈ ([wSeg0, wSeg1] : List FocusSession),
        seg.startTime ≤ t ∧ t ≤ seg.endTime) ↔
      (wSession.startTime ≤ t ∧
        t + wSession.timezone ≤
          unionTop (wSession.endTime + wSession.timezone))) :=
  splitByDay_segments_spec wSession [wSeg0, wSeg1] (by decide) rfl

end Streaks
